import Mathlib

/-!
Shallow embedding of the fleet-synchronization core of the `server-monitor`
repository (files `src/core/pm2_worker.py`, `src/view/main.py`,
`src/view/sidebar.py`), together with proofs settling the frozen claims
about it.

Conventions of the embedding:
* Python values that flow through the reconciliation code (JSON-decoded
  records and the persisted project configurations) are modelled by the
  inductive type `PyVal`; Python `dict`s are association lists with unique
  keys (`Dict`), looked up by first match.
* The worker (`Pm2Worker`) performs external-process invocations whose
  outcome is outside the program: each invocation's outcome is an explicit
  `RunOutcome` input (success / non-zero exit / timeout / tool missing),
  and the daemon-liveness probe `_is_daemon_running` is a `Bool` input.
  Every worker method is a pure function from those inputs to the list of
  `Event`s it produces (Qt signals emitted, commands invoked, descriptor
  files created and removed), in order.
* `json.loads`-success is modelled by the executable checker `json_valid`,
  a recursive-descent recogniser of the JSON grammar accepted by Python's
  `json.loads` (with its default `allow_nan=True`).
-/

/-- Model of the Python values stored in project configurations and in the
JSON-decoded live process records. -/
inductive PyVal where
  | pynone
  | boolv (b : Bool)
  | intv (n : Int)
  | str (s : String)
  | dict (entries : List (String × PyVal))
  | listv (elems : List PyVal)

/-- A Python `dict` with string keys, as an association list (keys unique,
first match wins on lookup). -/
abbrev Dict : Type := List (String × PyVal)

/-- Dictionary lookup, `d[k]` / `k in d`: `some v` when the key is present. -/
def pyGet : Dict → String → Option PyVal
  | [], _ => none
  | kv :: d, k => if kv.1 == k then some kv.2 else pyGet d k

/-- `d.get(k)`: missing keys yield Python `None`. -/
def pyGetV (d : Dict) (k : String) : PyVal :=
  (pyGet d k).getD PyVal.pynone

/-- Python's dict merge `{**a, **b}` (src/view/main.py line 296): the keys of
`a` in order, with `b`'s value where `b` also has the key, followed by the
keys of `b` that are absent from `a`, in order. -/
def dictMerge (a b : Dict) : Dict :=
  a.map (fun kv => (kv.1, (pyGet b kv.1).getD kv.2)) ++
    b.filter (fun kv => (pyGet a kv.1).isNone)

theorem pyGet_append (l₁ l₂ : Dict) (k : String) :
    pyGet (l₁ ++ l₂) k =
      match pyGet l₁ k with
      | some v => some v
      | none => pyGet l₂ k := by
  induction l₁ with
  | nil => rfl
  | cons kv t ih =>
    show pyGet (kv :: (t ++ l₂)) k = _
    by_cases h : kv.1 == k
    · simp [pyGet, h]
    · simp [pyGet, h, ih]

theorem pyGet_map_snd (a : Dict) (k : String) (m : String → PyVal → PyVal) :
    pyGet (a.map (fun kv => (kv.1, m kv.1 kv.2))) k =
      (pyGet a k).map (m k) := by
  induction a with
  | nil => rfl
  | cons kv t ih =>
    by_cases h : kv.1 == k
    · have hk : kv.1 = k := by simpa using h
      simp [pyGet, h, hk]
    · simp [pyGet, h, ih]

theorem pyGet_filter_of_none (a b : Dict) (k : String)
    (h : pyGet a k = none) :
    pyGet (b.filter (fun kv => (pyGet a kv.1).isNone)) k = pyGet b k := by
  induction b with
  | nil => rfl
  | cons kv t ih =>
    by_cases hk : kv.1 == k
    · have hk' : kv.1 = k := by simpa using hk
      have : (pyGet a kv.1).isNone = true := by rw [hk', h]; rfl
      simp [List.filter, this, pyGet, hk]
    · by_cases hkeep : (pyGet a kv.1).isNone
      · simp [List.filter, hkeep, pyGet, hk, ih]
      · simp [List.filter, hkeep, ih, pyGet, hk]

/-- Python `{**a, **b}` gives the fields of `b` precedence on overlapping
keys, and falls back to `a` elsewhere. -/
theorem pyGet_dictMerge (a b : Dict) (k : String) :
    pyGet (dictMerge a b) k =
      if (pyGet b k).isSome then pyGet b k else pyGet a k := by
  unfold dictMerge
  rw [pyGet_append, pyGet_map_snd a k (fun x v => (pyGet b x).getD v)]
  cases ha : pyGet a k with
  | some v =>
    cases hb : pyGet b k with
    | some w => simp [hb]
    | none => simp [hb]
  | none =>
    rw [pyGet_filter_of_none a b k ha]
    cases hb : pyGet b k with
    | some w => simp [hb]
    | none => simp [hb]

theorem dictMerge_nil (a : Dict) : dictMerge a [] = a := by
  unfold dictMerge
  rw [List.filter_nil, List.append_nil]
  induction a with
  | nil => rfl
  | cons kv t ih =>
    show (kv.1, (pyGet [] kv.1).getD kv.2) :: _ = _
    rw [ih]
    rfl

/-! ### A recogniser for the JSON grammar accepted by Python's `json.loads`

`json_valid s = true` models `json.loads(s)` succeeding (the worker and the
consumer `update_ui` both call `json.loads`; the embedding only ever needs
whether it succeeds). Python's default decoder accepts standard JSON plus
the literals `NaN`, `Infinity` and `-Infinity`, requires control characters
inside strings to be escaped, and allows the usual four whitespace
characters between tokens. -/

def isJsonWs (c : Char) : Bool :=
  c == ' ' || c == '\t' || c == '\n' || c == '\r'

def skipWs : List Char → List Char
  | c :: cs => if isJsonWs c then skipWs cs else c :: cs
  | [] => []

def isJsonDigit (c : Char) : Bool := '0' ≤ c && c ≤ '9'

def isJsonHex (c : Char) : Bool :=
  isJsonDigit c || ('a' ≤ c && c ≤ 'f') || ('A' ≤ c && c ≤ 'F')

def dropDigits : List Char → List Char
  | c :: cs => if isJsonDigit c then dropDigits cs else c :: cs
  | [] => []

/-- Consume the remainder of a JSON string, the opening quote already read. -/
def pStringRest : List Char → Option (List Char)
  | [] => none
  | '"' :: cs => some cs
  | '\\' :: rest =>
    match rest with
    | 'u' :: a :: b :: c :: d :: cs =>
      if isJsonHex a && isJsonHex b && isJsonHex c && isJsonHex d then
        pStringRest cs
      else none
    | e :: cs =>
      if e == '"' || e == '\\' || e == '/' || e == 'b' || e == 'f' ||
          e == 'n' || e == 'r' || e == 't' then
        pStringRest cs
      else none
    | [] => none
  | c :: cs => if 0x20 ≤ c.toNat then pStringRest cs else none

/-- Exponent part of a JSON number (optional). -/
def pExpPart : List Char → Option (List Char)
  | e :: r =>
    if e == 'e' || e == 'E' then
      let r2 := match r with
        | s :: r3 => if s == '+' || s == '-' then r3 else s :: r3
        | [] => []
      match r2 with
      | c :: r3 => if isJsonDigit c then some (dropDigits r3) else none
      | [] => none
    else some (e :: r)
  | [] => some []

/-- Fraction and exponent parts of a JSON number (both optional). -/
def pFracPart : List Char → Option (List Char)
  | '.' :: r =>
    match r with
    | c :: r2 => if isJsonDigit c then pExpPart (dropDigits r2) else none
    | [] => none
  | cs => pExpPart cs

/-- A JSON number, plus the non-standard `Infinity` / `-Infinity` / `NaN`
accepted by Python's decoder. -/
def pNumber (cs : List Char) : Option (List Char) :=
  match cs with
  | 'N' :: 'a' :: 'N' :: r => some r
  | 'I' :: 'n' :: 'f' :: 'i' :: 'n' :: 'i' :: 't' :: 'y' :: r => some r
  | _ =>
    let cs1 := match cs with | '-' :: r => r | _ => cs
    match cs1 with
    | 'I' :: 'n' :: 'f' :: 'i' :: 'n' :: 'i' :: 't' :: 'y' :: r => some r
    | '0' :: r => pFracPart r
    | c :: r => if isJsonDigit c then pFracPart (dropDigits r) else none
    | [] => none

mutual

/-- One JSON value; returns the unconsumed remainder on success. -/
def pVal : Nat → List Char → Option (List Char)
  | 0, _ => none
  | Nat.succ fuel, cs =>
    match skipWs cs with
    | '\x7b' :: rest =>
      (match skipWs rest with
       | '\x7d' :: rest2 => some rest2
       | rest2 => pMembers fuel rest2)
    | '[' :: rest =>
      (match skipWs rest with
       | ']' :: rest2 => some rest2
       | rest2 => pElems fuel rest2)
    | '"' :: rest => pStringRest rest
    | 't' :: 'r' :: 'u' :: 'e' :: rest => some rest
    | 'f' :: 'a' :: 'l' :: 's' :: 'e' :: rest => some rest
    | 'n' :: 'u' :: 'l' :: 'l' :: rest => some rest
    | cs2 => pNumber cs2

/-- Non-empty comma-separated element list of a JSON array, including the
closing bracket. -/
def pElems : Nat → List Char → Option (List Char)
  | 0, _ => none
  | Nat.succ fuel, cs =>
    match pVal fuel cs with
    | none => none
    | some rest =>
      match skipWs rest with
      | ',' :: r2 => pElems fuel r2
      | ']' :: r2 => some r2
      | _ => none

/-- Non-empty comma-separated member list of a JSON object, including the
closing brace. -/
def pMembers : Nat → List Char → Option (List Char)
  | 0, _ => none
  | Nat.succ fuel, cs =>
    match cs with
    | '"' :: r =>
      match pStringRest r with
      | none => none
      | some r1 =>
        match skipWs r1 with
        | ':' :: r2 =>
          match pVal fuel r2 with
          | none => none
          | some r3 =>
            match skipWs r3 with
            | ',' :: r4 => pMembers fuel (skipWs r4)
            | '\x7d' :: r4 => some r4
            | _ => none
        | _ => none
    | _ => none

end

/-- `json_valid s = true` iff `json.loads(s)` succeeds: one JSON value
surrounded only by whitespace. -/
def json_valid (s : String) : Bool :=
  match pVal (2 * s.length + 2) s.toList with
  | some rest => (skipWs rest).isEmpty
  | none => false

example : json_valid "[]" = true := by decide
example : json_valid "[1]" = true := by decide
example : json_valid "[1, \x7b\"a\": null\x7d]" = true := by decide
example : json_valid "" = false := by decide
example : json_valid "boom" = false := by decide
example : json_valid "nope" = false := by decide
example : json_valid "[1," = false := by decide
example : json_valid "-Infinity" = true := by decide

/-! ### The worker `Pm2Worker` (src/core/pm2_worker.py)

Each external invocation (`subprocess.check_output` inside `_run_command`)
has an outcome decided by the outside world, modelled by `RunOutcome`.
`failure` carries the combined output captured from the non-zero-exit
process (`e.output` of `CalledProcessError`, a string under `text=True`);
`timeout` carries `e.output` of `TimeoutExpired`, which may be absent.
The liveness probe `_is_daemon_running` is modelled by a `Bool` input.
Worker methods are functions from these inputs to the ordered list of
observable `Event`s they produce. -/

inductive RunOutcome where
  | success (out : String)
  | failure (out : String)
  | timeout (out : Option String)
  | notFound
deriving DecidableEq

/-- Observable effects of the worker: Qt signals emitted, external commands
invoked, and descriptor files created/removed. -/
inductive Event where
  | invoked (cmd : String)
  | errorSig (msg : String)
  | listReady (payload : String)
  | logsReady (name : String) (payload : String)
  | actionFinished (title : String) (msg : String)
  | daemonStatusReady (running : Bool)
  | createdFile (path : String)
  | removedFile (path : String)
deriving DecidableEq

def notFoundMsg : String :=
  "Error: 'pm2' command not found. Is PM2 installed and in your system's PATH?"

/-- The f-string message of line 110 — the words Command failed followed by
the command line and the captured output; a missing captured output formats
as Python `None`. -/
def cmdFailMsg (cmd : String) (out : Option String) : String :=
  "Command failed: " ++ cmd ++ "\n\nOutput:\n" ++ out.getD "None"

/-- `Pm2Worker._run_command` (lines 79-111): returns the Python return value
(`none` models returning `None`) together with the events produced.
On success: the captured output. On `FileNotFoundError`: always emits the
not-found error and returns `None`. On non-zero exit or timeout: emits a
user-facing error unless `can_fail`, and returns the captured output (which
for a timeout may itself be `None`). -/
def run_command (cmd : String) (can_fail : Bool) (res : RunOutcome) :
    Option String × List Event :=
  match res with
  | .success out => (some out, [.invoked cmd])
  | .notFound => (none, [.invoked cmd, .errorSig notFoundMsg])
  | .failure out =>
    (some out,
      [.invoked cmd] ++ if can_fail then [] else [.errorSig (cmdFailMsg cmd (some out))])
  | .timeout out =>
    (out,
      [.invoked cmd] ++ if can_fail then [] else [.errorSig (cmdFailMsg cmd out)])

/-- Python truthiness of an optional string (`if output:`): `None` and the
empty string are falsy. -/
def truthy : Option String → Bool
  | some s => !s.isEmpty
  | none => false

def jlistCmd : String := "pm2 jlist"

/-- `Pm2Worker.get_process_list` (lines 128-150): emit the probe result,
then, if the daemon is up, run `pm2 jlist` tolerantly and emit its output
when it parses as JSON, else emit `"[]"`; if the daemon is down, emit
`"[]"` without querying. -/
def get_process_list (probe : Bool) (jl : RunOutcome) : List Event :=
  Event.daemonStatusReady probe ::
    (if probe then
      match run_command jlistCmd true jl with
      | (none, evs) => evs ++ [Event.listReady "[]"]
      | (some s, evs) =>
        evs ++ [Event.listReady (if json_valid s then s else "[]")]
    else [Event.listReady "[]"])

/-- `Pm2Worker.get_initial_state` (lines 54-77): the returned pair
`(process list json, daemon running)` plus the events produced on the way.
When the probe says not-running it returns `('[]', False)` immediately;
otherwise it queries tolerantly and falls back to `'[]'` when the query
returned `None` or its text does not parse as JSON. -/
def get_initial_state (probe : Bool) (jl : RunOutcome) :
    (String × Bool) × List Event :=
  if probe then
    match run_command jlistCmd true jl with
    | (none, evs) => (("[]", true), evs)
    | (some s, evs) => (((if json_valid s then s else "[]"), true), evs)
  else (("[]", false), [])

def logsCmd (name : String) : String :=
  "pm2 logs " ++ name ++ " --lines 200 --nostream"

/-- `Pm2Worker.get_logs` (lines 152-157): runs the logs command (NOT marked
`can_fail`), and emits `logs_ready` whenever the returned output is truthy. -/
def get_logs (name : String) (res : RunOutcome) : List Event :=
  let r := run_command (logsCmd name) false res
  r.2 ++ (if truthy r.1 then [Event.logsReady name (r.1.getD "")] else [])

/-- `Pm2Worker.start_daemon` (lines 113-118). -/
def start_daemon (res : RunOutcome) (probe : Bool) (jl : RunOutcome) :
    List Event :=
  (run_command "pm2 resurrect" true res).2 ++
    [Event.actionFinished "PM2 Daemon" "Attempting to start/resurrect PM2 Daemon..."] ++
    get_process_list probe jl

/-- `Pm2Worker.kill_daemon` (lines 120-126); note the `is not None` test. -/
def kill_daemon (res : RunOutcome) (probe : Bool) (jl : RunOutcome) :
    List Event :=
  let r := run_command "pm2 kill" false res
  r.2 ++
    (if r.1.isSome then
      [Event.actionFinished "PM2 Daemon Killed" "The PM2 daemon has been stopped."]
    else []) ++
    get_process_list probe jl

/-- `Pm2Worker.stop_process` (lines 188-194). -/
def stop_process (name : String) (res : RunOutcome) (probe : Bool)
    (jl : RunOutcome) : List Event :=
  let r := run_command ("pm2 stop " ++ name) false res
  r.2 ++
    (if truthy r.1 then
      [Event.actionFinished "Process Stopped"
        ("Stopped '" ++ name ++ "'.\n" ++ r.1.getD "")]
    else []) ++
    get_process_list probe jl

/-- `Pm2Worker.restart_process` (lines 196-202). -/
def restart_process (name : String) (res : RunOutcome) (probe : Bool)
    (jl : RunOutcome) : List Event :=
  let r := run_command ("pm2 restart " ++ name) false res
  r.2 ++
    (if truthy r.1 then
      [Event.actionFinished "Process Restarted"
        ("Restarted '" ++ name ++ "'.\n" ++ r.1.getD "")]
    else []) ++
    get_process_list probe jl

/-- `Pm2Worker.delete_process` (lines 204-210). -/
def delete_process (name : String) (res : RunOutcome) (probe : Bool)
    (jl : RunOutcome) : List Event :=
  let r := run_command ("pm2 delete " ++ name) false res
  r.2 ++
    (if truthy r.1 then
      [Event.actionFinished "Process Deleted"
        ("Deleted '" ++ name ++ "' from PM2.\n" ++ r.1.getD "")]
    else []) ++
    get_process_list probe jl

/-- `Pm2Worker.reload_process` (lines 212-218). -/
def reload_process (name : String) (res : RunOutcome) (probe : Bool)
    (jl : RunOutcome) : List Event :=
  let r := run_command ("pm2 reload " ++ name) false res
  r.2 ++
    (if truthy r.1 then
      [Event.actionFinished "Process Reloaded"
        ("Reloaded '" ++ name ++ "'.\n" ++ r.1.getD "")]
    else []) ++
    get_process_list probe jl

/-- `Pm2Worker.stop_all` (lines 220-226). -/
def stop_all (res : RunOutcome) (probe : Bool) (jl : RunOutcome) :
    List Event :=
  let r := run_command "pm2 stop all" false res
  r.2 ++
    (if truthy r.1 then [Event.actionFinished "All Processes Stopped" (r.1.getD "")]
    else []) ++
    get_process_list probe jl

/-- `Pm2Worker.restart_all` (lines 228-234). -/
def restart_all (res : RunOutcome) (probe : Bool) (jl : RunOutcome) :
    List Event :=
  let r := run_command "pm2 restart all" false res
  r.2 ++
    (if truthy r.1 then [Event.actionFinished "All Processes Restarted" (r.1.getD "")]
    else []) ++
    get_process_list probe jl

/- Python `str()` of a value, as interpolated into f-strings. Nested
containers are rendered with `str` of their parts (Python uses `repr`,
which additionally quotes nested strings; no claim depends on the rendering
of containers, and the only value ever rendered in practice is the
process's name string). -/
mutual

/-- Rendering of one Python value, as interpolated into an f-string. -/
def pyFmt : PyVal → String
  | .pynone => "None"
  | .boolv b => if b then "True" else "False"
  | .intv n => toString n
  | .str s => s
  | .dict es => "\x7b" ++ pyFmtEntries es ++ "\x7d"
  | .listv vs => "[" ++ pyFmtList vs ++ "]"

/-- Entries of a rendered dict. -/
def pyFmtEntries : List (String × PyVal) → String
  | [] => ""
  | [kv] => "'" ++ kv.1 ++ "': " ++ pyFmt kv.2
  | kv :: rest => "'" ++ kv.1 ++ "': " ++ pyFmt kv.2 ++ ", " ++ pyFmtEntries rest

/-- Elements of a rendered list. -/
def pyFmtList : List PyVal → String
  | [] => ""
  | [v] => pyFmt v
  | v :: rest => pyFmt v ++ ", " ++ pyFmtList rest

end

/-- The whitelist of configuration keys forwarded to the ecosystem
descriptor (src/core/pm2_worker.py lines 162-166). -/
def pm2_keys : List String :=
  ["name", "script", "args", "interpreter", "node_args", "watch",
   "max_memory_restart", "env", "exec_mode", "instances", "autorestart",
   "cron_restart", "merge_logs", "log_date_format", "out_file", "error_file"]

/-- `project_data[key] not in (None, '')`: only `None` and the empty string
compare equal (under Python `==`) to a member of that pair for the value
kinds that occur here. -/
def inNoneOrEmpty : PyVal → Bool
  | .pynone => true
  | .str s => s.isEmpty
  | _ => false

/-- The `app_config` built by `start_process` (lines 167-172): the
whitelisted keys with present, non-`None`, non-empty values, in whitelist
order, then `cwd` copied from `path` whenever `path` is present. -/
def build_app_config (pd : Dict) : Dict :=
  (pm2_keys.filterMap (fun k =>
    match pyGet pd k with
    | some v => if inNoneOrEmpty v then none else some (k, v)
    | none => none)) ++
    (match pyGet pd "path" with
     | some v => [("cwd", v)]
     | none => [])

def startCmd (tmp : String) : String := "pm2 start \"" ++ tmp ++ "\""

/-- The conditional `action_finished` emission of `start_process`
(lines 181-182): emitted when the command's returned output is truthy and
`app_config['name']` is present (when absent, the f-string lookup raises
and nothing is emitted). -/
def start_action_events (cfg : Dict) (r : Option String) : List Event :=
  if truthy r then
    match pyGet cfg "name" with
    | some v =>
      [Event.actionFinished "Process Started"
        ("Attempted to start '" ++ pyFmt v ++ "'.\n" ++ r.getD "")]
    | none => []
  else []

/-- `Pm2Worker.start_process` (lines 159-186): writes the one-shot
ecosystem descriptor (`tmp` is the temporary file's name), invokes
`pm2 start`, emits the result when the output is truthy (when `name` is
absent from `app_config`, the f-string lookup `app_config['name']` raises
and nothing is emitted), and in the `finally` block removes the descriptor
and triggers a full refresh — on every path. -/
def start_process (pd : Dict) (tmp : String) (res : RunOutcome)
    (probe : Bool) (jl : RunOutcome) : List Event :=
  let cfg := build_app_config pd
  let r := run_command (startCmd tmp) false res
  Event.createdFile tmp :: r.2 ++ start_action_events cfg r.1 ++
    [Event.removedFile tmp] ++ get_process_list probe jl

/-- One user-initiated mutating control operation of the worker, with the
argument it is invoked on. -/
inductive MutOp where
  | opStartProcess (pd : Dict) (tmp : String)
  | opStopProcess (name : String)
  | opRestartProcess (name : String)
  | opReloadProcess (name : String)
  | opDeleteProcess (name : String)
  | opStopAll
  | opRestartAll
  | opStartDaemon
  | opKillDaemon

/-- Dispatcher: run a mutating operation given the outcome `res` of its own
command and the environment (`probe`, `jl`) seen by the follow-up refresh. -/
def runMutOp (op : MutOp) (res : RunOutcome) (probe : Bool)
    (jl : RunOutcome) : List Event :=
  match op with
  | .opStartProcess pd tmp => start_process pd tmp res probe jl
  | .opStopProcess n => stop_process n res probe jl
  | .opRestartProcess n => restart_process n res probe jl
  | .opReloadProcess n => reload_process n res probe jl
  | .opDeleteProcess n => delete_process n res probe jl
  | .opStopAll => stop_all res probe jl
  | .opRestartAll => restart_all res probe jl
  | .opStartDaemon => start_daemon res probe jl
  | .opKillDaemon => kill_daemon res probe jl

/-! ### Reconciliation (`PM2GUI.update_ui`, src/view/main.py lines 290-300)

The merge walks the declared configurations, pairs each with the first live
record whose `name` compares equal (`p.get('name') == proj_config['name']`),
overlays the live fields on the declared ones, and sorts by `p['name']`. -/

/-- `p.get('name') == nv`: Python equality of the looked-up value with the
declared name. The only reachable comparison is string-vs-string (the
declared set's invariant makes `nv` a string); every other comparison of
the value kinds occurring here is `False` under Python `==`. -/
def nameMatches (p : Dict) (nv : PyVal) : Bool :=
  match pyGetV p "name", nv with
  | .str a, .str b => a == b
  | _, _ => false

/-- The merged record for one declared configuration (lines 295-296). When
the configuration has no `name` key the source raises `KeyError`; that case
is unreachable under the declared-set invariant and is mapped to the
configuration itself. -/
def merge_one (pm2_processes : List Dict) (proj_config : Dict) : Dict :=
  match pyGet proj_config "name" with
  | some nv =>
    dictMerge proj_config
      ((pm2_processes.find? (fun p => nameMatches p nv)).getD [])
  | none => proj_config

/-- The sort key `lambda p: p['name']` (line 299). A missing or non-string
`name` would raise in the source; unreachable under the invariant, mapped
to `""`. -/
def sortKey (p : Dict) : String :=
  match pyGet p "name" with
  | some (.str s) => s
  | _ => ""

/-- Ordering of merged records by their sort key. -/
def nameLe (a b : Dict) : Prop := sortKey a ≤ sortKey b

instance : DecidableRel nameLe :=
  fun a b => inferInstanceAs (Decidable (sortKey a ≤ sortKey b))

instance : IsTotal Dict nameLe := ⟨fun a b => le_total (sortKey a) (sortKey b)⟩

instance : IsTrans Dict nameLe :=
  ⟨fun _ _ _ h₁ h₂ => le_trans h₁ h₂⟩

/-- Lines 292-299 of `update_ui`: merge every declared configuration with
its matching live record and sort the result by name (`list.sort` is a
stable comparison sort; so is insertion sort). -/
def update_ui_merge (known_projects : List Dict) (pm2_processes : List Dict) :
    List Dict :=
  List.insertionSort nameLe (known_projects.map (merge_one pm2_processes))

/-- `ProjectListItemWidget.update_status` (src/view/sidebar.py line 44):
`project_data.get('pm2_env', {}).get('status', 'undeployed')`. `none`
models the `AttributeError` raised when a present `pm2_env` is not a dict
(never reached for worker-produced data). -/
def status_of (d : Dict) : Option PyVal :=
  match pyGet d "pm2_env" with
  | Option.none => some (PyVal.str "undeployed")
  | some (.dict e) => some ((pyGet e "status").getD (PyVal.str "undeployed"))
  | some _ => none

/-! ### The daemon state machine (`PM2GUI.update_daemon_status`,
src/view/main.py lines 223-236)

`self.daemon_state` starts as `None` (line 69). The method receives either
a boolean (the worker's `daemon_status_ready` / the preloader's initial
status) or the explicit enum value; every call site that passes an enum
passes `DaemonState.PENDING` (lines 186, 191, 202). The state becomes the
converted input unless it already equals it. -/

inductive DaemonState where
  | stopped
  | running
  | pending
deriving DecidableEq

/-- One input to `update_daemon_status`: an authoritative liveness boolean,
or the explicit `DaemonState.PENDING` passed by the user-action handlers. -/
inductive StatusInput where
  | fromBool (b : Bool)
  | requestPending
deriving DecidableEq

/-- Lines 226-229: conversion of the argument to the new state. -/
def inputState : StatusInput → DaemonState
  | .fromBool b => if b then .running else .stopped
  | .requestPending => .pending

/-- Lines 226-236: the state after one call of `update_daemon_status`
(the equality guard at line 232 only skips the side effects; the stored
state afterwards is the converted input either way). -/
def update_daemon_status (cur : Option DaemonState) (inp : StatusInput) :
    Option DaemonState :=
  let ns := inputState inp
  if some ns = cur then cur else some ns

/-- The successive values of `self.daemon_state` produced by a sequence of
calls. -/
def daemonTrace : Option DaemonState → List StatusInput → List (Option DaemonState)
  | _, [] => []
  | cur, i :: is =>
    let n := update_daemon_status cur i
    n :: daemonTrace n is

/-! ### The list diff (`PM2GUI.update_ui`, src/view/main.py lines 319-348)

On a non-first update the widget list (one `dashboard` item plus one item
per project, tagged with its name) is diffed against the new merged list:
items whose name is absent from the new data are removed; then, walking the
new list with its index, a name already present before the update is
updated in place and a new name is inserted at row `i + 1` (row 0 is the
dashboard). `existing_items_map` is built before the removals, from the
pre-update widget contents. -/

/-- An item of `project_list_widget`: the dashboard header or a project
item tagged with its project name. -/
inductive RItem where
  | dashboard
  | project (name : String)
deriving DecidableEq

/-- The names of the project items, in widget order. -/
def projNames : List RItem → List String
  | [] => []
  | .dashboard :: t => projNames t
  | .project n :: t => n :: projNames t

/-- `QListWidget.insertItem(row, item)`: insert at position `row` (appends
when `row` is past the end). -/
def insertAt (row : Nat) (it : RItem) : List RItem → List RItem
  | [] => [it]
  | x :: t =>
    match row with
    | 0 => it :: x :: t
    | Nat.succ r => x :: insertAt r it t

/-- Lines 331-334: remove every project item whose name is not among the
new names (with the widget's names unique — which they are, being keyed by
the declared set — this is exactly what the loop over `existing_items_map`
does). -/
def removePhase (w : List RItem) (newNames : List String) : List RItem :=
  w.filter (fun it =>
    match it with
    | .dashboard => true
    | .project n => newNames.contains n)

/-- Lines 337-348: walk the new merged list with its index; names already
present in the pre-update map are updated in place, new names are inserted
at row `i + 1`. Returns the widget contents together with the number of
insertions and of in-place updates performed. -/
def insertPhase (existing : List String) :
    Nat → List RItem → List String → List RItem × Nat × Nat
  | _, w, [] => (w, 0, 0)
  | i, w, n :: rest =>
    if existing.contains n then
      let r := insertPhase existing (i + 1) w rest
      (r.1, r.2.1, r.2.2 + 1)
    else
      let r := insertPhase existing (i + 1) (insertAt (i + 1) (RItem.project n) w) rest
      (r.1, r.2.1 + 1, r.2.2)

/-- The whole non-first-load diff pass: widget contents after the pass,
with the number of removals, insertions and in-place updates. -/
def update_ui_diff (w : List RItem) (newNames : List String) :
    List RItem × Nat × Nat × Nat :=
  let existing := projNames w
  let removed := (projNames w).filter (fun n => !newNames.contains n)
  let w1 := removePhase w newNames
  let r := insertPhase existing 0 w1 newNames
  (r.1, removed.length, r.2.1, r.2.2)

/-! ### Helper lemmas -/

theorem isSuffix_append_left {α : Type} (l₁ : List α) {l₂ l₃ : List α}
    (h : List.IsSuffix l₃ l₂) : List.IsSuffix l₃ (l₁ ++ l₂) := by
  obtain ⟨t, ht⟩ := h
  exact ⟨l₁ ++ t, by rw [List.append_assoc, ht]⟩

/-! ### Claims C1 and C2 -/

/-- C1 (counterexample): an authoritative liveness refresh reporting
`False` while the state is `Running` moves the state machine directly to
`Stopped` in a single step, with no intervening `Pending`: the input
sequence `[True, False]` (two refresh results) drives the state from its
initial `None` through `Running` directly to `Stopped`. -/
theorem C1_cex :
    update_daemon_status (some DaemonState.running) (StatusInput.fromBool false) =
      some DaemonState.stopped
    ∧ daemonTrace none [StatusInput.fromBool true, StatusInput.fromBool false] =
      [some DaemonState.running, some DaemonState.stopped] := by
  decide

/-- C1 (amended): whenever `update_daemon_status` changes the state between
`Running` and `Stopped` in one step, the input that caused it is an
authoritative liveness boolean (a refresh result); an explicit `Pending`
request never produces a direct `Running`/`Stopped` change. -/
theorem C1_direct_only_via_refresh (cur : Option DaemonState) (inp : StatusInput)
    (h : (cur = some DaemonState.running ∧
            update_daemon_status cur inp = some DaemonState.stopped) ∨
         (cur = some DaemonState.stopped ∧
            update_daemon_status cur inp = some DaemonState.running)) :
    ∃ b : Bool, inp = StatusInput.fromBool b := by
  cases inp with
  | fromBool b => exact ⟨b, rfl⟩
  | requestPending =>
    rcases h with ⟨hc, hs⟩ | ⟨hc, hs⟩ <;>
      simp [update_daemon_status, inputState, hc] at hs

/-- Witness for C1 (amended) at a concrete input. -/
theorem C1_direct_only_via_refresh_w :
    ∃ b : Bool, StatusInput.fromBool false = StatusInput.fromBool b :=
  C1_direct_only_via_refresh (some DaemonState.running) (StatusInput.fromBool false)
    (Or.inl ⟨rfl, by decide⟩)

/-- C2: every mutating control operation (`start_process`, `stop_process`,
`restart_process`, `reload_process`, `delete_process`, `stop_all`,
`restart_all`, `start_daemon`, `kill_daemon`) ends, on every outcome of its
own command (success, non-zero exit, timeout, tool not found), with the
full trace of a `get_process_list` refresh. -/
theorem C2_refresh_after_every_mutation (op : MutOp) (res : RunOutcome)
    (probe : Bool) (jl : RunOutcome) :
    List.IsSuffix (get_process_list probe jl) (runMutOp op res probe jl) := by
  cases op <;> exact isSuffix_append_left _ (List.suffix_refl _)

/-! ### Claims C3, C4, C5, C10 -/

/-- C3 (counterexample): with the daemon running, a `pm2 jlist` invocation
that fails with non-zero exit but whose captured output `"[1]"` happens to
parse as JSON is returned as the process list — not the empty list the
claim demands for a failed query. -/
theorem C3_cex :
    (get_initial_state true (RunOutcome.failure "[1]")).1 ≠ ("[]", true)
    ∧ (get_initial_state true (RunOutcome.failure "[1]")).1 = ("[1]", true)
    ∧ json_valid "[1]" = true := by
  decide

/-- C3 (amended): `get_initial_state` returns `('[]', False)` and produces
no events at all (in particular invokes no query) whenever the prober
reports not-running; when the prober reports running it always preserves
`daemonRunning = True`, and returns `('[]', True)` exactly when the
tolerant query returned `None` or returned text that does not parse as
JSON — a failed query whose captured text parses as JSON is returned as
the list. -/
theorem C3_initial_state (jl : RunOutcome) :
    (get_initial_state false jl).1 = ("[]", false)
    ∧ (get_initial_state false jl).2 = []
    ∧ (get_initial_state true jl).1.2 = true
    ∧ ((run_command jlistCmd true jl).1 = none →
        (get_initial_state true jl).1 = ("[]", true))
    ∧ (∀ s, (run_command jlistCmd true jl).1 = some s → json_valid s = false →
        (get_initial_state true jl).1 = ("[]", true))
    ∧ (∀ s, (run_command jlistCmd true jl).1 = some s → json_valid s = true →
        (get_initial_state true jl).1 = (s, true)) := by
  refine ⟨rfl, rfl, ?_, ?_, ?_, ?_⟩
  · cases jl with
    | success out => simp [get_initial_state, run_command]
    | failure out => simp [get_initial_state, run_command]
    | timeout out =>
      cases out <;> simp [get_initial_state, run_command]
    | notFound => rfl
  · intro h
    cases jl with
    | success out => simp [run_command] at h
    | failure out => simp [run_command] at h
    | timeout out =>
      cases out with
      | none => rfl
      | some s => simp [run_command] at h
    | notFound => rfl
  · intro s hs hv
    cases jl with
    | success out =>
      simp only [run_command] at hs
      cases hs
      simp [get_initial_state, run_command, hv]
    | failure out =>
      simp only [run_command] at hs
      cases hs
      simp [get_initial_state, run_command, hv]
    | timeout out =>
      cases out with
      | none => simp [run_command] at hs
      | some t =>
        simp only [run_command] at hs
        cases hs
        simp [get_initial_state, run_command, hv]
    | notFound => simp [run_command] at hs
  · intro s hs hv
    cases jl with
    | success out =>
      simp only [run_command] at hs
      cases hs
      simp [get_initial_state, run_command, hv]
    | failure out =>
      simp only [run_command] at hs
      cases hs
      simp [get_initial_state, run_command, hv]
    | timeout out =>
      cases out with
      | none => simp [run_command] at hs
      | some t =>
        simp only [run_command] at hs
        cases hs
        simp [get_initial_state, run_command, hv]
    | notFound => simp [run_command] at hs

/-- Witness for C3 (amended) at a concrete input: a failed query with
non-JSON captured output yields the empty list with the daemon reported
running. -/
theorem C3_initial_state_w :
    (get_initial_state true (RunOutcome.failure "nope")).1 = ("[]", true) :=
  (C3_initial_state (RunOutcome.failure "nope")).2.2.2.2.1 "nope" rfl (by decide)

/-- C4 (counterexample): with the daemon running, a `pm2 jlist` invocation
failing because the tool is missing DOES surface a user-visible error; and
a failed invocation whose captured output `"[1]"` parses as JSON is emitted
as the list payload, not as the empty list. -/
theorem C4_cex :
    Event.errorSig notFoundMsg ∈ get_process_list true RunOutcome.notFound
    ∧ get_process_list true (RunOutcome.failure "[1]") =
        [Event.daemonStatusReady true, Event.invoked jlistCmd,
         Event.listReady "[1]"]
    ∧ Event.listReady "[]" ∉ get_process_list true (RunOutcome.failure "[1]") := by
  decide

/-- C4 (amended): `get_process_list` always emits the liveness result
first; with the prober reporting not-running it emits the empty list
without invoking the query and with no error; with the prober reporting
running, a query that returned text not parsing as JSON, or no text at
all other than by a missing tool, yields `daemonRunning=true` with the
empty list and no error, while a missing tool additionally surfaces the
not-found error (still emitting the empty list), and returned text that
parses as JSON is emitted as the payload. -/
theorem C4_refresh_list (probe : Bool) (jl : RunOutcome) :
    (∃ tr, get_process_list probe jl = Event.daemonStatusReady probe :: tr)
    ∧ (probe = false → get_process_list probe jl =
        [Event.daemonStatusReady false, Event.listReady "[]"])
    ∧ (probe = true → ∀ s, (run_command jlistCmd true jl).1 = some s →
        json_valid s = false →
        get_process_list probe jl =
          [Event.daemonStatusReady true, Event.invoked jlistCmd,
           Event.listReady "[]"])
    ∧ (probe = true → jl = RunOutcome.notFound →
        get_process_list probe jl =
          [Event.daemonStatusReady true, Event.invoked jlistCmd,
           Event.errorSig notFoundMsg, Event.listReady "[]"])
    ∧ (probe = true → (run_command jlistCmd true jl).1 = none →
        jl ≠ RunOutcome.notFound →
        get_process_list probe jl =
          [Event.daemonStatusReady true, Event.invoked jlistCmd,
           Event.listReady "[]"])
    ∧ (probe = true → ∀ s, (run_command jlistCmd true jl).1 = some s →
        json_valid s = true →
        get_process_list probe jl =
          [Event.daemonStatusReady true, Event.invoked jlistCmd,
           Event.listReady s]) := by
  refine ⟨?_, ?_, ?_, ?_, ?_, ?_⟩
  · cases probe with
    | false => exact ⟨_, rfl⟩
    | true =>
      cases jl with
      | success out => exact ⟨_, rfl⟩
      | failure out => exact ⟨_, rfl⟩
      | timeout out => cases out <;> exact ⟨_, rfl⟩
      | notFound => exact ⟨_, rfl⟩
  · intro h; cases h; rfl
  · intro h s hs hv
    cases h
    cases jl with
    | success out =>
      simp only [run_command] at hs
      cases hs
      simp [get_process_list, run_command, hv]
    | failure out =>
      simp only [run_command] at hs
      cases hs
      simp [get_process_list, run_command, hv]
    | timeout out =>
      cases out with
      | none => simp [run_command] at hs
      | some t =>
        simp only [run_command] at hs
        cases hs
        simp [get_process_list, run_command, hv]
    | notFound => simp [run_command] at hs
  · intro h hj; cases h; cases hj; rfl
  · intro h hs hj
    cases h
    cases jl with
    | success out => simp [run_command] at hs
    | failure out => simp [run_command] at hs
    | timeout out =>
      cases out with
      | none => rfl
      | some t => simp [run_command] at hs
    | notFound => exact absurd rfl hj
  · intro h s hs hv
    cases h
    cases jl with
    | success out =>
      simp only [run_command] at hs
      cases hs
      simp [get_process_list, run_command, hv]
    | failure out =>
      simp only [run_command] at hs
      cases hs
      simp [get_process_list, run_command, hv]
    | timeout out =>
      cases out with
      | none => simp [run_command] at hs
      | some t =>
        simp only [run_command] at hs
        cases hs
        simp [get_process_list, run_command, hv]
    | notFound => simp [run_command] at hs

/-- Witness for C4 (amended) at concrete inputs: a running daemon with a
malformed successful query emits true plus the empty list. -/
theorem C4_refresh_list_w :
    get_process_list true (RunOutcome.success "boom") =
      [Event.daemonStatusReady true, Event.invoked jlistCmd,
       Event.listReady "[]"] :=
  (C4_refresh_list true (RunOutcome.success "boom")).2.2.1 rfl "boom" rfl (by decide)

/-- The error message `_run_command` surfaces for a given failing outcome. -/
def failMsgOf (cmd : String) : RunOutcome → String
  | .notFound => notFoundMsg
  | .failure out => cmdFailMsg cmd (some out)
  | .timeout out => cmdFailMsg cmd out
  | .success _ => ""

/-- `True` for the three failing outcomes of an invocation. -/
def isFailOutcome : RunOutcome → Bool
  | .success _ => false
  | _ => true

/-- C5 (counterexample): a `pm2 logs` invocation failing with non-zero exit
and captured output `"boom"` surfaces a user-visible error AND emits the
captured failure text as a `logs_ready` update — the failure is neither
silent nor update-free. -/
theorem C5_cex :
    Event.logsReady "web" "boom" ∈ get_logs "web" (RunOutcome.failure "boom")
    ∧ Event.errorSig (cmdFailMsg (logsCmd "web") (some "boom")) ∈
        get_logs "web" (RunOutcome.failure "boom") := by
  decide

/-- C5 (amended): the log-fetch call is NOT marked tolerable, so on every
failing outcome (non-zero exit, timeout, tool not found) `get_logs`
surfaces a user-visible error, and it emits a `logs_ready` update exactly
when the captured output is non-empty — in particular no update is emitted
on tool-not-found, or on a failure/timeout whose captured output is empty
or missing. -/
theorem C5_logs_failure (name : String) (res : RunOutcome)
    (h : isFailOutcome res = true) :
    get_logs name res =
      [Event.invoked (logsCmd name), Event.errorSig (failMsgOf (logsCmd name) res)]
      ++ (match res with
          | .failure out => if out.isEmpty then [] else [Event.logsReady name out]
          | .timeout (some out) =>
            if out.isEmpty then [] else [Event.logsReady name out]
          | _ => []) := by
  cases res with
  | success out => simp [isFailOutcome] at h
  | notFound => rfl
  | failure out =>
    by_cases he : out.isEmpty <;>
      simp [get_logs, run_command, truthy, failMsgOf, he]
  | timeout out =>
    cases out with
    | none => rfl
    | some t =>
      by_cases he : t.isEmpty <;>
        simp [get_logs, run_command, truthy, failMsgOf, he]

/-- Witness for C5 (amended) at a concrete input: tool-not-found surfaces
the error and emits no log update. -/
theorem C5_logs_failure_w :
    get_logs "web" RunOutcome.notFound =
      [Event.invoked (logsCmd "web"), Event.errorSig notFoundMsg] := by
  have h := C5_logs_failure "web" RunOutcome.notFound rfl
  simpa [failMsgOf] using h

/-- C10: every payload the worker emits through `list_ready`, and the list
string `get_initial_state` returns, parses as valid JSON — the worker
substitutes the literal `'[]'` whenever the candidate text does not parse —
so the `json.JSONDecodeError` branch of the consumer `update_ui`
(src/view/main.py lines 284-288) is unreachable for worker-produced
payloads. -/
theorem C10_payloads_json_valid (probe : Bool) (jl : RunOutcome) :
    (∀ s, Event.listReady s ∈ get_process_list probe jl → json_valid s = true)
    ∧ json_valid (get_initial_state probe jl).1.1 = true := by
  have hnil : json_valid "[]" = true := by decide
  constructor
  · intro s hs
    cases probe with
    | false =>
      simp [get_process_list] at hs
      cases hs
      exact hnil
    | true =>
      cases jl with
      | success out =>
        by_cases hv : json_valid out <;>
          (simp [get_process_list, run_command, hv] at hs; cases hs; first | exact hv | exact hnil)
      | failure out =>
        by_cases hv : json_valid out <;>
          (simp [get_process_list, run_command, hv] at hs; cases hs; first | exact hv | exact hnil)
      | timeout out =>
        cases out with
        | none =>
          simp [get_process_list, run_command] at hs
          cases hs
          exact hnil
        | some t =>
          by_cases hv : json_valid t <;>
            (simp [get_process_list, run_command, hv] at hs; cases hs; first | exact hv | exact hnil)
      | notFound =>
        simp [get_process_list, run_command] at hs
        cases hs
        exact hnil
  · cases probe with
    | false => exact hnil
    | true =>
      cases jl with
      | success out =>
        by_cases hv : json_valid out <;>
          simp [get_initial_state, run_command, hv, hnil]
      | failure out =>
        by_cases hv : json_valid out <;>
          simp [get_initial_state, run_command, hv, hnil]
      | timeout out =>
        cases out with
        | none => exact hnil
        | some t =>
          by_cases hv : json_valid t <;>
            simp [get_initial_state, run_command, hv, hnil]
      | notFound => exact hnil

/-- Witness for C10 at a concrete input: the payload emitted after a
malformed query result is `"[]"`, which parses as JSON. -/
theorem C10_payloads_json_valid_w : json_valid "[]" = true :=
  (C10_payloads_json_valid true (RunOutcome.success "boom")).1 "[]" (by decide)

/-! ### Claims C6 and C7 -/

/-- The merged record of a declared configuration keeps the declared name
as its sort key. -/
theorem sortKey_merge_one (pm2 : List Dict) (d : Dict) (s : String)
    (hs : pyGet d "name" = some (PyVal.str s)) :
    sortKey (merge_one pm2 d) = sortKey d := by
  unfold merge_one
  rw [hs]
  show sortKey
      (dictMerge d ((List.find? (fun p => nameMatches p (PyVal.str s)) pm2).getD []))
    = sortKey d
  cases hf : pm2.find? (fun p => nameMatches p (PyVal.str s)) with
  | none => simp [hf, dictMerge_nil]
  | some ld =>
    have hmatch := List.find?_some hf
    simp only [] at hmatch
    unfold nameMatches at hmatch
    cases hv : pyGetV ld "name" with
    | str a =>
      rw [hv] at hmatch
      simp only [] at hmatch
      have ha : a = s := by simpa using hmatch
      have hld : pyGet ld "name" = some (PyVal.str s) := by
        unfold pyGetV at hv
        cases hg : pyGet ld "name" with
        | none => rw [hg] at hv; simp at hv
        | some v => rw [hg] at hv; simp at hv; rw [hv, ha]
      unfold sortKey
      simp only [Option.getD_some]
      rw [pyGet_dictMerge, hld, hs]
      simp
    | pynone => rw [hv] at hmatch; simp at hmatch
    | boolv b => rw [hv] at hmatch; simp at hmatch
    | intv n => rw [hv] at hmatch; simp at hmatch
    | dict e => rw [hv] at hmatch; simp at hmatch
    | listv e => rw [hv] at hmatch; simp at hmatch

/-- Merging does not change the multiset of sort keys of the declared set. -/
theorem map_sortKey_merge (pm2 known : List Dict)
    (h : ∀ d ∈ known, ∃ s, pyGet d "name" = some (PyVal.str s)) :
    (known.map (merge_one pm2)).map sortKey = known.map sortKey := by
  induction known with
  | nil => rfl
  | cons d t ih =>
    obtain ⟨s, hs⟩ := h d (List.mem_cons_self d t)
    simp only [List.map_cons, List.map_map]
    rw [sortKey_merge_one pm2 d s hs]
    have := ih (fun x hx => h x (List.mem_cons_of_mem d hx))
    simp only [List.map_map] at this
    rw [this]

/-- C6: for every declared set with present, unique string names and every
live list, the reconciled list produced by `update_ui` is sorted by name,
and its names are exactly the declared names with no duplicates — live
records matching no declared name contribute no entry. -/
theorem C6_reconcile_sorted_exact (known pm2 : List Dict)
    (hname : ∀ d ∈ known, ∃ s, pyGet d "name" = some (PyVal.str s))
    (hnodup : (known.map sortKey).Nodup) :
    List.Sorted (fun a b => a ≤ b) ((update_ui_merge known pm2).map sortKey)
    ∧ List.Perm ((update_ui_merge known pm2).map sortKey) (known.map sortKey)
    ∧ ((update_ui_merge known pm2).map sortKey).Nodup := by
  have hperm : List.Perm (update_ui_merge known pm2)
      (known.map (merge_one pm2)) :=
    List.perm_insertionSort nameLe _
  have hmap : List.Perm ((update_ui_merge known pm2).map sortKey)
      (known.map sortKey) := by
    have := hperm.map sortKey
    rwa [map_sortKey_merge pm2 known hname] at this
  refine ⟨?_, hmap, hmap.nodup_iff.2 hnodup⟩
  have hsorted : List.Sorted nameLe (update_ui_merge known pm2) :=
    List.sorted_insertionSort nameLe _
  exact List.pairwise_map.2 hsorted

/-- Witness for C6 at a concrete input: two declared entries named "b" and
"a" with an empty live list. -/
theorem C6_reconcile_sorted_exact_w :
    List.Sorted (fun a b => a ≤ b)
      ((update_ui_merge [[("name", PyVal.str "b")], [("name", PyVal.str "a")]] []).map sortKey)
    ∧ List.Perm
      ((update_ui_merge [[("name", PyVal.str "b")], [("name", PyVal.str "a")]] []).map sortKey)
      ([[("name", PyVal.str "b")], [("name", PyVal.str "a")]].map sortKey)
    ∧ (((update_ui_merge [[("name", PyVal.str "b")], [("name", PyVal.str "a")]] []).map sortKey)).Nodup := by
  refine C6_reconcile_sorted_exact _ _ ?_ ?_
  · intro d hd
    fin_cases hd
    · exact ⟨"b", rfl⟩
    · exact ⟨"a", rfl⟩
  · decide

/-- C7: the merged view built by `update_ui` for a declared configuration
is the declared fields overlaid with the matching live record's fields,
live fields taking precedence on overlapping keys; when no live record's
name matches, the merged view is exactly the declared configuration (no
live fields), and — the declared configuration carrying no `pm2_env`
field — its status is reported as `undeployed` by the sidebar widget. -/
theorem C7_merge_overlay (pm2 : List Dict) (d : Dict) (s : String)
    (hs : pyGet d "name" = some (PyVal.str s)) :
    (∀ ld, pm2.find? (fun p => nameMatches p (PyVal.str s)) = some ld →
      ∀ k, pyGet (merge_one pm2 d) k =
        if (pyGet ld k).isSome then pyGet ld k else pyGet d k)
    ∧ (pm2.find? (fun p => nameMatches p (PyVal.str s)) = none →
      merge_one pm2 d = d
      ∧ (pyGet d "pm2_env" = none →
          status_of (merge_one pm2 d) = some (PyVal.str "undeployed"))) := by
  constructor
  · intro ld hld k
    unfold merge_one
    rw [hs]
    show pyGet
        (dictMerge d ((List.find? (fun p => nameMatches p (PyVal.str s)) pm2).getD []))
        k = _
    rw [hld]
    simp only [Option.getD_some]
    exact pyGet_dictMerge d ld k
  · intro hld
    have hid : merge_one pm2 d = d := by
      unfold merge_one
      rw [hs]
      show dictMerge d ((List.find? (fun p => nameMatches p (PyVal.str s)) pm2).getD [])
        = d
      rw [hld]
      exact dictMerge_nil d
    refine ⟨hid, fun henv => ?_⟩
    rw [hid]
    unfold status_of
    rw [henv]

/-- Witness for C7 at a concrete input: declared entries named "a" and "b",
with the live list carrying only "a" (status online); the merged view for
"b" is the declared record itself and its status is `undeployed`. -/
theorem C7_merge_overlay_w :
    merge_one
        [[("name", PyVal.str "a"),
          ("pm2_env", PyVal.dict [("status", PyVal.str "online")])]]
        [("name", PyVal.str "b"), ("path", PyVal.str "/x")]
      = [("name", PyVal.str "b"), ("path", PyVal.str "/x")]
    ∧ status_of (merge_one
        [[("name", PyVal.str "a"),
          ("pm2_env", PyVal.dict [("status", PyVal.str "online")])]]
        [("name", PyVal.str "b"), ("path", PyVal.str "/x")])
      = some (PyVal.str "undeployed") := by
  have h := (C7_merge_overlay
    [[("name", PyVal.str "a"),
      ("pm2_env", PyVal.dict [("status", PyVal.str "online")])]]
    [("name", PyVal.str "b"), ("path", PyVal.str "/x")] "b" rfl).2 rfl
  exact ⟨h.1, h.2 rfl⟩

/-! ### Claim C8 -/

theorem mem_projNames {n : String} :
    ∀ {w : List RItem}, n ∈ projNames w ↔ RItem.project n ∈ w := by
  intro w
  induction w with
  | nil => simp [projNames]
  | cons it t ih =>
    cases it with
    | dashboard => simp [projNames, ih]
    | project m => simp [projNames, ih]

theorem mem_insertAt {x it : RItem} :
    ∀ (row : Nat) (l : List RItem), x ∈ insertAt row it l ↔ x = it ∨ x ∈ l := by
  intro row l
  induction l generalizing row with
  | nil => simp [insertAt]
  | cons y t ih =>
    cases row with
    | zero => simp [insertAt]
    | succ r =>
      simp [insertAt, ih r]
      tauto

theorem projNames_removePhase (w : List RItem) (ns : List String) :
    projNames (removePhase w ns) =
      (projNames w).filter (fun n => ns.contains n) := by
  induction w with
  | nil => rfl
  | cons it t ih =>
    cases it with
    | dashboard =>
      simp only [removePhase] at ih ⊢
      simpa [List.filter_cons, projNames] using ih
    | project m =>
      by_cases hm : ns.contains m = true
      · have hm' : m ∈ ns := by simpa using hm
        simp only [removePhase] at ih ⊢
        simp only [List.filter_cons]
        simp [hm', projNames]
        simpa using ih
      · have hm' : m ∉ ns := by simpa using hm
        simp only [removePhase] at ih ⊢
        simp only [List.filter_cons]
        simp [hm', projNames]
        simpa using ih

theorem mem_projNames_removePhase {n : String} {w : List RItem}
    {ns : List String} :
    n ∈ projNames (removePhase w ns) ↔ n ∈ projNames w ∧ n ∈ ns := by
  rw [projNames_removePhase, List.mem_filter]
  simp

theorem insertPhase_mem_mono {m : String} {existing : List String} :
    ∀ (i : Nat) (w : List RItem) (ns : List String),
      m ∈ projNames w → m ∈ projNames (insertPhase existing i w ns).1 := by
  intro i w ns
  induction ns generalizing i w with
  | nil => intro h; exact h
  | cons n rest ih =>
    intro h
    by_cases hn : existing.contains n = true
    · simp only [insertPhase]
      rw [if_pos hn]
      exact ih (i + 1) w h
    · simp only [insertPhase]
      rw [if_neg hn]
      refine ih (i + 1) _ ?_
      rw [mem_projNames] at h ⊢
      exact (mem_insertAt (i + 1) w).2 (Or.inr h)

theorem insertPhase_mem_new {m : String} {existing : List String} :
    ∀ (i : Nat) (w : List RItem) (ns : List String),
      m ∈ ns → existing.contains m = false →
      m ∈ projNames (insertPhase existing i w ns).1 := by
  intro i w ns
  induction ns generalizing i w with
  | nil => intro h _; simp at h
  | cons n rest ih =>
    intro hm hex
    rcases List.mem_cons.1 hm with hm | hm
    · subst hm
      have hn : ¬(existing.contains m = true) := by rw [hex]; simp
      simp only [insertPhase]
      rw [if_neg hn]
      refine insertPhase_mem_mono (i + 1) _ rest ?_
      rw [mem_projNames]
      exact (mem_insertAt (i + 1) w).2 (Or.inl rfl)
    · by_cases hn : existing.contains n = true
      · simp only [insertPhase]
        rw [if_pos hn]
        exact ih (i + 1) w hm hex
      · simp only [insertPhase]
        rw [if_neg hn]
        exact ih (i + 1) _ hm hex

theorem insertPhase_mem_sub {m : String} {existing : List String} :
    ∀ (i : Nat) (w : List RItem) (ns : List String),
      m ∈ projNames (insertPhase existing i w ns).1 →
      m ∈ projNames w ∨ m ∈ ns := by
  intro i w ns
  induction ns generalizing i w with
  | nil => intro h; exact Or.inl h
  | cons n rest ih =>
    intro h
    by_cases hn : existing.contains n = true
    · simp only [insertPhase] at h
      rw [if_pos hn] at h
      rcases ih (i + 1) w h with h | h
      · exact Or.inl h
      · exact Or.inr (List.mem_cons_of_mem n h)
    · simp only [insertPhase] at h
      rw [if_neg hn] at h
      rcases ih (i + 1) _ h with h | h
      · rw [mem_projNames] at h
        rcases (mem_insertAt (i + 1) w).1 h with h | h
        · refine Or.inr ?_
          injection h with h2
          rw [h2]
          exact List.mem_cons_self n rest
        · exact Or.inl (mem_projNames.2 h)
      · exact Or.inr (List.mem_cons_of_mem n h)

theorem insertPhase_insert_count {existing : List String} :
    ∀ (i : Nat) (w : List RItem) (ns : List String),
      (insertPhase existing i w ns).2.1 =
        (ns.filter (fun n => !existing.contains n)).length := by
  intro i w ns
  induction ns generalizing i w with
  | nil => rfl
  | cons n rest ih =>
    by_cases hn : existing.contains n = true
    · simp only [insertPhase]
      rw [if_pos hn]
      show (insertPhase existing (i + 1) w rest).2.1 = _
      rw [List.filter_cons]
      rw [if_neg (by rw [hn]; simp)]
      exact ih (i + 1) w
    · simp only [insertPhase]
      rw [if_neg hn]
      have hb : existing.contains n = false := by
        cases hc : existing.contains n with
        | false => rfl
        | true => exact absurd hc hn
      show (insertPhase existing (i + 1)
        (insertAt (i + 1) (RItem.project n) w) rest).2.1 + 1 = _
      rw [List.filter_cons]
      rw [if_pos (by rw [hb]; rfl)]
      rw [List.length_cons]
      exact congrArg (fun x => x + 1)
        (ih (i + 1) (insertAt (i + 1) (RItem.project n) w))

theorem insertPhase_update_count {existing : List String} :
    ∀ (i : Nat) (w : List RItem) (ns : List String),
      (insertPhase existing i w ns).2.2 =
        (ns.filter (fun n => existing.contains n)).length := by
  intro i w ns
  induction ns generalizing i w with
  | nil => rfl
  | cons n rest ih =>
    by_cases hn : existing.contains n = true
    · simp only [insertPhase]
      rw [if_pos hn]
      show (insertPhase existing (i + 1) w rest).2.2 + 1 = _
      rw [List.filter_cons]
      rw [if_pos hn]
      rw [List.length_cons]
      exact congrArg (fun x => x + 1) (ih (i + 1) w)
    · simp only [insertPhase]
      rw [if_neg hn]
      show (insertPhase existing (i + 1)
        (insertAt (i + 1) (RItem.project n) w) rest).2.2 = _
      rw [List.filter_cons]
      rw [if_neg hn]
      exact ih (i + 1) (insertAt (i + 1) (RItem.project n) w)

/-- After one diff pass the project names rendered are exactly the new
names. -/
theorem projNames_after_diff (w : List RItem) (newNames : List String)
    (m : String) :
    m ∈ projNames (update_ui_diff w newNames).1 ↔ m ∈ newNames := by
  unfold update_ui_diff
  constructor
  · intro h
    rcases insertPhase_mem_sub 0 (removePhase w newNames) newNames h with h | h
    · exact (mem_projNames_removePhase.1 h).2
    · exact h
  · intro h
    by_cases hex : (projNames w).contains m = true
    · refine insertPhase_mem_mono 0 _ newNames ?_
      exact mem_projNames_removePhase.2 ⟨by simpa using hex, h⟩
    · have hb : (projNames w).contains m = false := by
        cases hc : (projNames w).contains m with
        | false => rfl
        | true => exact absurd hc hex
      exact insertPhase_mem_new 0 _ newNames h hb

/-- C8: the diff is idempotent — after applying the diff against a new
merged list (rendered and new names being duplicate-free, which the
name-keyed widget and the name-unique declared set guarantee), re-running
the diff of the resulting rendered list against the identical list performs
no removals and no insertions, only one in-place update per entry. -/
theorem C8_diff_idempotent (w : List RItem) (newNames : List String)
    (h1 : (projNames w).Nodup) (h2 : newNames.Nodup) :
    (update_ui_diff (update_ui_diff w newNames).1 newNames).2.1 = 0
    ∧ (update_ui_diff (update_ui_diff w newNames).1 newNames).2.2.1 = 0
    ∧ (update_ui_diff (update_ui_diff w newNames).1 newNames).2.2.2 =
        newNames.length := by
  have hnames := projNames_after_diff w newNames
  refine ⟨?_, ?_, ?_⟩
  · show ((projNames (update_ui_diff w newNames).1).filter
      (fun n => !newNames.contains n)).length = 0
    rw [List.length_eq_zero, List.filter_eq_nil_iff]
    intro n hn
    simp [(hnames n).1 hn]
  · show (insertPhase (projNames (update_ui_diff w newNames).1) 0
      (removePhase (update_ui_diff w newNames).1 newNames) newNames).2.1 = 0
    rw [insertPhase_insert_count]
    rw [List.length_eq_zero, List.filter_eq_nil_iff]
    intro n hn
    simp [(hnames n).2 hn]
  · show (insertPhase (projNames (update_ui_diff w newNames).1) 0
      (removePhase (update_ui_diff w newNames).1 newNames) newNames).2.2 =
      newNames.length
    rw [insertPhase_update_count]
    have hfil : newNames.filter
        (fun n => (projNames (update_ui_diff w newNames).1).contains n) = newNames := by
      rw [List.filter_eq_self]
      intro n hn
      simp [(hnames n).2 hn]
    rw [hfil]

/-- Witness for C8 at a concrete input: rendered list `[dashboard, "a"]`
diffed against new names `["a", "b"]`. -/
theorem C8_diff_idempotent_w :
    (update_ui_diff
      (update_ui_diff [RItem.dashboard, RItem.project "a"] ["a", "b"]).1
      ["a", "b"]).2.1 = 0
    ∧ (update_ui_diff
      (update_ui_diff [RItem.dashboard, RItem.project "a"] ["a", "b"]).1
      ["a", "b"]).2.2.1 = 0
    ∧ (update_ui_diff
      (update_ui_diff [RItem.dashboard, RItem.project "a"] ["a", "b"]).1
      ["a", "b"]).2.2.2 = (["a", "b"] : List String).length :=
  C8_diff_idempotent [RItem.dashboard, RItem.project "a"] ["a", "b"]
    (by decide) (by decide)

/-! ### Claim C9 -/

/-- Whether the file at `p` exists after a trace of events, starting from
existence state `b`. -/
def fileAlive (p : String) : Bool → List Event → Bool
  | b, [] => b
  | b, e :: tr =>
    match e with
    | Event.createdFile q => fileAlive p (if q == p then true else b) tr
    | Event.removedFile q => fileAlive p (if q == p then false else b) tr
    | _ => fileAlive p b tr

/-- `True` only for the file-system events. -/
def touchesFile : Event → Bool
  | Event.createdFile _ => true
  | Event.removedFile _ => true
  | _ => false

theorem fileAlive_append (p : String) (b : Bool) (l₁ l₂ : List Event) :
    fileAlive p b (l₁ ++ l₂) = fileAlive p (fileAlive p b l₁) l₂ := by
  induction l₁ generalizing b with
  | nil => rfl
  | cons e tr ih =>
    cases e <;> simp [fileAlive, ih]

theorem fileAlive_no_touch (p : String) (b : Bool) (tr : List Event)
    (h : ∀ e ∈ tr, touchesFile e = false) : fileAlive p b tr = b := by
  induction tr with
  | nil => rfl
  | cons e t ih =>
    have he := h e (List.mem_cons_self e t)
    have ht : ∀ e ∈ t, touchesFile e = false :=
      fun x hx => h x (List.mem_cons_of_mem e hx)
    cases e <;> simp [touchesFile] at he ⊢ <;> simp [fileAlive, ih ht]

theorem run_command_no_touch (cmd : String) (cf : Bool) (res : RunOutcome) :
    ∀ e ∈ (run_command cmd cf res).2, touchesFile e = false := by
  cases res with
  | success out => intro e he; simp [run_command] at he; simp [he, touchesFile]
  | notFound =>
    intro e he
    simp [run_command] at he
    rcases he with he | he <;> simp [he, touchesFile]
  | failure out =>
    intro e he
    cases cf with
    | false =>
      simp [run_command] at he
      rcases he with he | he <;> simp [he, touchesFile]
    | true =>
      simp [run_command] at he
      simp [he, touchesFile]
  | timeout out =>
    intro e he
    cases cf with
    | false =>
      simp [run_command] at he
      rcases he with he | he <;> simp [he, touchesFile]
    | true =>
      simp [run_command] at he
      simp [he, touchesFile]

theorem get_process_list_no_touch (probe : Bool) (jl : RunOutcome) :
    ∀ e ∈ get_process_list probe jl, touchesFile e = false := by
  intro e he
  cases probe with
  | false =>
    simp [get_process_list] at he
    rcases he with he | he <;> simp [he, touchesFile]
  | true =>
    cases hr : run_command jlistCmd true jl with
    | mk fst snd =>
      cases fst with
      | none =>
        simp [get_process_list, hr] at he
        rcases he with he | he | he
        · simp [he, touchesFile]
        · exact run_command_no_touch jlistCmd true jl e (by rw [hr]; exact he)
        · simp [he, touchesFile]
      | some s =>
        simp [get_process_list, hr] at he
        rcases he with he | he | he
        · simp [he, touchesFile]
        · exact run_command_no_touch jlistCmd true jl e (by rw [hr]; exact he)
        · simp [he, touchesFile]

theorem start_action_no_touch (cfg : Dict) (r : Option String) :
    ∀ e ∈ start_action_events cfg r, touchesFile e = false := by
  intro e he
  unfold start_action_events at he
  by_cases ht : truthy r = true
  · rw [if_pos ht] at he
    cases hg : pyGet cfg "name" with
    | some v =>
      rw [hg] at he
      simp at he
      simp [he, touchesFile]
    | none =>
      rw [hg] at he
      simp at he
  · rw [if_neg ht] at he
    simp at he

/-- C9: for every input configuration and every outcome of the start
command, `start_process` creates the one-shot descriptor file first, then
invokes the start command, and removes the descriptor afterwards; after the
call returns the descriptor file no longer exists. -/
theorem C9_descriptor_lifecycle (pd : Dict) (tmp : String) (res : RunOutcome)
    (probe : Bool) (jl : RunOutcome) :
    (∃ mid post, start_process pd tmp res probe jl =
      Event.createdFile tmp :: Event.invoked (startCmd tmp) :: mid ++
        Event.removedFile tmp :: post)
    ∧ fileAlive tmp false (start_process pd tmp res probe jl) = false := by
  constructor
  · refine ⟨(run_command (startCmd tmp) false res).2.tail ++
      start_action_events (build_app_config pd)
        (run_command (startCmd tmp) false res).1,
      get_process_list probe jl, ?_⟩
    have hshape : (run_command (startCmd tmp) false res).2 =
        Event.invoked (startCmd tmp) ::
          (run_command (startCmd tmp) false res).2.tail := by
      cases res <;> rfl
    show Event.createdFile tmp :: (run_command (startCmd tmp) false res).2 ++
        start_action_events (build_app_config pd)
          (run_command (startCmd tmp) false res).1 ++
        [Event.removedFile tmp] ++ get_process_list probe jl = _
    rw [hshape]
    simp
  · show fileAlive tmp false
      (Event.createdFile tmp :: (run_command (startCmd tmp) false res).2 ++
        start_action_events (build_app_config pd)
          (run_command (startCmd tmp) false res).1 ++
        [Event.removedFile tmp] ++ get_process_list probe jl) = false
    have h1 : fileAlive tmp false
        (Event.createdFile tmp :: (run_command (startCmd tmp) false res).2 ++
          start_action_events (build_app_config pd)
            (run_command (startCmd tmp) false res).1 ++
          [Event.removedFile tmp] ++ get_process_list probe jl) =
        fileAlive tmp true
          ((run_command (startCmd tmp) false res).2 ++
            start_action_events (build_app_config pd)
              (run_command (startCmd tmp) false res).1 ++
            [Event.removedFile tmp] ++ get_process_list probe jl) := by
      show fileAlive tmp (if tmp == tmp then true else false) _ = _
      simp
    rw [h1]
    rw [fileAlive_append, fileAlive_append, fileAlive_append]
    rw [fileAlive_no_touch tmp true _ (run_command_no_touch (startCmd tmp) false res)]
    rw [fileAlive_no_touch tmp true _ (start_action_no_touch (build_app_config pd) _)]
    have h2 : fileAlive tmp true [Event.removedFile tmp] = false := by
      show fileAlive tmp (if tmp == tmp then false else true) [] = _
      simp [fileAlive]
    rw [h2]
    exact fileAlive_no_touch tmp false _ (get_process_list_no_touch probe jl)
